import Mathlib

/-!
Verification of the branch-derivation and conflict-resolution engine of
rq-core (`git.rs`, `command.rs`).

The embedding has two levels.

* A state-level model: `GitState` describes the repository (commit graph,
  branch/tag references, remote `origin`, checked-out branch, working tree),
  and each git subcommand the source issues is a function
  `GitState → GitState × Except String Unit` translated from git's documented
  behaviour for exactly the invocation the source uses.  On top of these, the
  functions `apply_patch`, `cherry_pick`, `create_branch_from` and
  `head_commit` are translated line by line from `impl GitRepo` in `git.rs`.

* A subprocess-level model: `Proc.git_core`, `Proc.git_output`, `Proc.apply`
  and `Proc.contains_file` are translated from the corresponding methods in
  `git.rs`, as functions of the spawned subprocess's outcome (exit status,
  captured stdout/stderr, or a spawn failure).
-/

/-- Association-list lookup keyed by decidable equality (first match wins,
matching git's behaviour that the most recent ref update is visible). -/
def alookup {α β : Type} [DecidableEq α] (k : α) : List (α × β) → Option β
  | [] => none
  | (a, b) :: rest => if a = k then some b else alookup k rest

/-- A file tree: an association list from path to file contents. -/
abbrev FileTree := List (String × String)

/-- A commit object: parent link, snapshot tree, and commit message. -/
structure GCommit where
  parent : Option Nat
  tree : FileTree
  message : String
deriving DecidableEq, Repr

/-- Outcome tag of a reconciliation strategy (source: `enum MergeType`). -/
inductive MergeType where
  | Success
  | SolutionReset
  | StarterReset
deriving DecidableEq, Repr

/-- Result of running one of the Rust functions: a normal value, an anyhow
error (carrying the rendered message), or a Rust panic — only the
`patches.last().unwrap()` in `apply_patch` can panic. -/
inductive GitResult (α : Type) where
  | ok (a : α)
  | error (e : String)
  | panic
deriving DecidableEq, Repr

/-- Map over the value of a `GitResult`, leaving errors and panics alone. -/
def GitResult.map {α β : Type} (f : α → β) : GitResult α → GitResult β
  | .ok a => .ok (f a)
  | .error e => .error e
  | .panic => .panic

/-- A textual patch, modelled extensionally by what `git apply` does with it:
`applies` maps each working tree the diff applies to cleanly to the patched
tree (any tree not listed makes `git apply` exit non-zero), and `failStderr`
is the stderr text the tool emits in the failing case. -/
structure Patch where
  applies : List (FileTree × FileTree)
  failStderr : String
deriving DecidableEq, Repr

/-- State of a git repository as observed through the subcommands the source
issues.  `savedRef` is git's record of an in-progress conflicted cherry-pick:
the value `cherry-pick --abort` would restore (branch pointer and working
tree).  `remoteRejects` models which branch names the remote `origin` refuses
to accept a push for. -/
structure GitState where
  commits : List (Nat × GCommit)
  nextId : Nat
  branches : List (String × Nat)
  tags : List (String × Nat)
  origin : List (String × Nat)
  headBranch : String
  workTree : FileTree
  remoteRejects : List String
  savedRef : Option (Nat × FileTree)
deriving DecidableEq, Repr

/-- Source: `pub const UPSTREAM: &str = "upstream";` -/
def UPSTREAM : String := "upstream"

/-- Source: `pub const INITIAL_TAG: &str = "initial";` -/
def INITIAL_TAG : String := "initial"

/-- Commit id the checked-out branch currently points to. -/
def headId (s : GitState) : Option Nat := alookup s.headBranch s.branches

/-- Resolve a revision name the way `git rev-parse` does for the names the
source uses: `refs/tags/<r>` takes precedence over `refs/heads/<r>`. -/
def resolveRef (r : String) (s : GitState) : Option Nat :=
  match alookup r s.tags with
  | some cid => some cid
  | none => alookup r s.branches

/-- Create a commit from tree `t` with message `msg`, advancing the
checked-out branch to it (models `git commit` with the index already equal to
`t`). -/
def mkCommit (msg : String) (t : FileTree) (s : GitState) : GitState :=
  { s with
    commits := (s.nextId, ⟨headId s, t, msg⟩) :: s.commits
    nextId := s.nextId + 1
    branches := (s.headBranch, s.nextId) :: s.branches
    workTree := t }

/-- Model of `git apply -` fed one patch: atomically rewrites the working
tree when the diff applies, otherwise exits non-zero leaving the tree
untouched (source: `GitRepo::apply`, which surfaces that failure as an error
carrying the tool's stderr). -/
def gitApply (p : Patch) (s : GitState) : GitState × Except String Unit :=
  match alookup s.workTree p.applies with
  | some t => ({ s with workTree := t }, .ok ())
  | none => (s, .error ("git apply failed with stderr:\n" ++ p.failStderr))

/-- Model of `git reset --hard <r>`: point the checked-out branch at the
commit `r` resolves to and overwrite working tree and index with its tree. -/
def gitResetHard (r : String) (s : GitState) : GitState × Except String Unit :=
  match resolveRef r s with
  | none => (s, .error ("git failed: reset --hard " ++ r))
  | some cid =>
    match alookup cid s.commits with
    | none => (s, .error ("git failed: reset --hard " ++ r))
    | some c =>
      ({ s with branches := (s.headBranch, cid) :: s.branches, workTree := c.tree }, .ok ())

/-- Model of `git reset --soft <r>`: move the checked-out branch to the
commit `r` resolves to, keeping index and working tree. -/
def gitResetSoft (r : String) (s : GitState) : GitState × Except String Unit :=
  match resolveRef r s with
  | none => (s, .error ("git failed: reset --soft " ++ r))
  | some cid =>
    ({ s with branches := (s.headBranch, cid) :: s.branches }, .ok ())

/-- Model of `git checkout <b>` for an existing branch. -/
def gitCheckout (b : String) (s : GitState) : GitState × Except String Unit :=
  match alookup b s.branches with
  | none => (s, .error ("git failed: checkout " ++ b))
  | some cid =>
    match alookup cid s.commits with
    | none => (s, .error ("git failed: checkout " ++ b))
    | some c => ({ s with headBranch := b, workTree := c.tree }, .ok ())

/-- Model of `git checkout -b <b>`: create `b` at the current HEAD commit and
switch to it; fails if `b` already exists. -/
def gitCheckoutNew (b : String) (s : GitState) : GitState × Except String Unit :=
  match alookup b s.branches with
  | some _ => (s, .error ("git failed: checkout -b " ++ b))
  | none =>
    match headId s with
    | none => (s, .error ("git failed: checkout -b " ++ b))
    | some h => ({ s with branches := (b, h) :: s.branches, headBranch := b }, .ok ())

/-- Model of `git push -u origin <b>`: publish the branch pointer to
`origin`, failing when the remote rejects the branch. -/
def gitPush (b : String) (s : GitState) : GitState × Except String Unit :=
  if b ∈ s.remoteRejects then (s, .error ("git failed: push -u origin " ++ b))
  else
    match alookup b s.branches with
    | none => (s, .error ("git failed: push -u origin " ++ b))
    | some cid => ({ s with origin := (b, cid) :: s.origin }, .ok ())

/-- Stage everything and commit (source sequence `git add .` then
`git commit -m <msg>`): the commit snapshots the working tree. -/
def gitAddCommit (msg : String) (s : GitState) : GitState :=
  mkCommit msg s.workTree s

/-- Apply a list of patches in order, stopping at the first failure
(source: the `for patch in patches { self.apply(patch)?; }` loop). -/
def applySeq : List Patch → GitState → GitState × Except String Unit
  | [], s => (s, .ok ())
  | p :: rest, s =>
    match gitApply p s with
    | (s1, .ok _) => applySeq rest s1
    | (s1, .error e) => (s1, .error e)

/-- Pure view of `applySeq`: the sequence of trees obtained by applying every
patch in order, `none` if some patch fails to apply. -/
def applyTrees : List Patch → FileTree → Option FileTree
  | [], t => some t
  | p :: ps, t =>
    match alookup t p.applies with
    | none => none
    | some t2 => applyTrees ps t2

/-- Shared tail of both branches of `apply_patch` (source lines 140–143):
`git add .`, `git commit -m 'Starter code'`, return the merge type. -/
def finishStarter (mt : MergeType) (s : GitState) : GitState × GitResult MergeType :=
  (gitAddCommit "Starter code" s, .ok mt)

/-- Translation of `GitRepo::apply_patch` (git.rs lines 126–144): try the
last patch alone; on failure hard-reset to the `initial` tag and apply every
patch in order; in both cases stage everything and commit 'Starter code'.
The `patches.last().unwrap()` on an empty slice is a Rust panic. -/
def apply_patch (s : GitState) (patches : List Patch) : GitState × GitResult MergeType :=
  match patches.getLast? with
  | none => (s, .panic)
  | some last =>
    match gitApply last s with
    | (s1, .ok _) => finishStarter .Success s1
    | (s1, .error _) =>
      match gitResetHard INITIAL_TAG s1 with
      | (s2, .error e) => (s2, .error e)
      | (s2, .ok _) =>
        match applySeq patches s2 with
        | (s3, .error e) => (s3, .error e)
        | (s3, .ok _) => finishStarter .StarterReset s3

/-- Three-way merge of one file when a commit changing it from `b` to `n` is
cherry-picked onto a tree where it currently reads `cur` (values `none` mean
the file is absent).  `none` is a conflict; `some v` is the merged value. -/
def mergeFile (b n cur : Option String) : Option (Option String) :=
  if cur = b then some n
  else if cur = n then some n
  else if b = n then some cur
  else none

/-- Model of cherry-picking one commit: the commit changed its parent's tree
`base` into `child`; replay that change onto the tree `cur`.  When `cur`
equals `base` the result is exactly `child`; otherwise each file is merged
three-way and any conflicting file makes the whole pick conflict. -/
def pickOnto (base child cur : FileTree) : Option FileTree :=
  if cur = base then some child
  else
    (((base ++ child ++ cur).map Prod.fst).eraseDups).foldr
      (fun k acc =>
        match acc with
        | none => none
        | some t =>
          match mergeFile (alookup k base) (alookup k child) (alookup k cur) with
          | none => none
          | some none => some t
          | some (some v) => some ((k, v) :: t))
      (some [])

/-- Materialise the commit range `(bid, cur]` oldest first, pairing each
commit with its parent's tree (the three-way base `git cherry-pick` uses).
`none` when the walk does not reach `bid` (git rejects the range). -/
def walkBack (fuel : Nat) (s : GitState) (bid : Nat) (cur : Nat)
    (acc : List (FileTree × GCommit)) : Option (List (FileTree × GCommit)) :=
  if cur = bid then some acc
  else
    match fuel with
    | 0 => none
    | fuel' + 1 =>
      match alookup cur s.commits with
      | none => none
      | some c =>
        match c.parent with
        | none => none
        | some p =>
          match alookup p s.commits with
          | none => none
          | some pc => walkBack fuel' s bid p ((pc.tree, c) :: acc)

/-- Replay a materialised commit range: each clean pick three-way-merges the
commit's change and commits the result.  Git commits the index here; on the
states the source drives this from — operations begin with a clean working
tree, since every reconciliation ends in a commit — index and working tree
coincide, and both are `workTree` in this model.  On the first conflict git
stops, recording in `savedRef` the pre-cherry-pick branch pointer `origPtr`
and working tree `origTree` that `--abort` will restore. -/
def replayList (origPtr : Nat) (origTree : FileTree) :
    List (FileTree × GCommit) → GitState → GitState × Except String Unit
  | [], s => (s, .ok ())
  | (bt, c) :: rest, s =>
    match pickOnto bt c.tree s.workTree with
    | some t2 => replayList origPtr origTree rest (mkCommit c.message t2 s)
    | none =>
      ({ s with savedRef := some (origPtr, origTree) },
        .error "git failed: cherry-pick: could not apply (conflict)")

/-- Model of `git cherry-pick upstream/<base>..upstream/<target>`: resolve
both endpoints, materialise the range, and replay it commit by commit. -/
def gitCherryPickCmd (base target : String) (s : GitState) :
    GitState × Except String Unit :=
  match headId s with
  | none => (s, .error "git failed: cherry-pick: bad HEAD")
  | some h =>
    match resolveRef (UPSTREAM ++ "/" ++ base) s,
          resolveRef (UPSTREAM ++ "/" ++ target) s with
    | some bid, some tid =>
      match walkBack s.commits.length s bid tid [] with
      | none => (s, .error "git failed: cherry-pick: bad range")
      | some items => replayList h s.workTree items s
    | _, _ => (s, .error "git failed: cherry-pick: bad revision")

/-- Model of `git cherry-pick --abort`: restore the saved branch pointer and
working tree; exits non-zero when no cherry-pick is in progress. -/
def gitCherryPickAbort (s : GitState) : GitState × Except String Unit :=
  match s.savedRef with
  | some (p, w) =>
    ({ s with branches := (s.headBranch, p) :: s.branches, workTree := w,
              savedRef := none }, .ok ())
  | none => (s, .error "error: no cherry-pick or revert in progress")

/-- Translation of `GitRepo::cherry_pick` (git.rs lines 146–169): cherry-pick
the upstream range; on failure abort the cherry-pick, hard-reset to
`upstream/<target>`, soft-reset to `main`, and commit the override. -/
def cherry_pick (s : GitState) (base_branch target_branch : String) :
    GitState × GitResult MergeType :=
  match gitCherryPickCmd base_branch target_branch s with
  | (s1, .ok _) => (s1, .ok .Success)
  | (s1, .error _) =>
    match gitCherryPickAbort s1 with
    | (s2, .error e) => (s2, .error ("Failed to abort cherry-pick: " ++ e))
    | (s2, .ok _) =>
      match gitResetHard (UPSTREAM ++ "/" ++ target_branch) s2 with
      | (s3, .error e) => (s3, .error e)
      | (s3, .ok _) =>
        match gitResetSoft "main" s3 with
        | (s4, .error e) => (s4, .error ("Failed to soft reset to main: " ++ e))
        | (s4, .ok _) =>
          (mkCommit "Override with reference solution" s4.workTree s4,
            .ok .SolutionReset)

/-- Translation of `GitRepo::head_commit` (git.rs lines 198–201):
`git rev-parse HEAD`, i.e. the commit the checked-out branch points to. -/
def head_commit (s : GitState) : Except String Nat :=
  match headId s with
  | some h => .ok h
  | none => .error "Failed to get head commit"

/-- Translation of `GitRepo::create_branch_from` (git.rs lines 171–188):
create and check out the target branch, run the template's strategy, push
with upstream tracking, capture the head commit, and return to `main`.
The template is the strategy `template.apply_patch(self, base, target)`. -/
def create_branch_from
    (template : String → String → GitState → GitState × GitResult MergeType)
    (base_branch target_branch : String) (s : GitState) :
    GitState × GitResult (Nat × MergeType) :=
  match gitCheckoutNew target_branch s with
  | (s1, .error e) => (s1, .error e)
  | (s1, .ok _) =>
    match template base_branch target_branch s1 with
    | (s2, .error e) => (s2, .error e)
    | (s2, .panic) => (s2, .panic)
    | (s2, .ok mt) =>
      match gitPush target_branch s2 with
      | (s3, .error e) => (s3, .error e)
      | (s3, .ok _) =>
        match head_commit s3 with
        | .error e => (s3, .error e)
        | .ok h =>
          match gitCheckout "main" s3 with
          | (s4, .error e) => (s4, .error e)
          | (s4, .ok _) => (s4, .ok (h, mt))

/-- Exit status of a finished subprocess, as `std::process` reports it. -/
structure ExitStatus where
  code : Int
deriving DecidableEq, Repr

/-- Captured output of a subprocess run with piped stdout/stderr. -/
structure SubprocOut where
  status : ExitStatus
  stdout : String
  stderr : String
deriving DecidableEq, Repr

/-- Outcome of spawning a subprocess and collecting its output: either the
process ran to completion, or the spawn/IO itself failed. -/
inductive Spawned where
  | ok (out : SubprocOut)
  | ioError (msg : String)
deriving DecidableEq, Repr

/-- Outcome of `Command::status()`: just an exit status, or an IO failure. -/
inductive StatusSpawned where
  | ok (st : ExitStatus)
  | ioError (msg : String)
deriving DecidableEq, Repr

namespace Proc

/-- Translation of `GitRepo::git_core` (git.rs lines 64–76): an IO failure is
an outer error; a non-zero exit is `Ok(Err(stderr))`; success is
`Ok(Ok(stdout))`. -/
def git_core (sp : Spawned) : Except String (Except String String) :=
  match sp with
  | .ioError m => .error m
  | .ok out =>
    if out.status.code = 0 then .ok (.ok out.stdout) else .ok (.error out.stderr)

/-- Translation of `GitRepo::git_output` (git.rs lines 83–87): flatten
`git_core`, turning a non-zero exit into a fatal error carrying the captured
stderr text. -/
def git_output (sp : Spawned) : Except String String :=
  match git_core sp with
  | .error e => .error e
  | .ok (.error stderr) => .error ("git failed with stderr:\n" ++ stderr)
  | .ok (.ok stdout) => .ok stdout

/-- Translation of `GitRepo::apply` (git.rs lines 107–124): `git apply -`
succeeds iff the subprocess exits zero; a non-zero exit is surfaced as a
fatal error carrying the captured stderr text. -/
def apply (sp : Spawned) : Except String Unit :=
  match sp with
  | .ioError m => .error m
  | .ok out =>
    if out.status.code = 0 then .ok ()
    else .error ("git apply failed with stderr:\n" ++ out.stderr)

/-- Translation of `GitRepo::contains_file` (git.rs lines 213–218): run
`git cat-file -e <branch>:<file>` with `.status()`; an IO failure is an
error with context, and otherwise the result is `Ok(status.success())`. -/
def contains_file (branch file : String) (sp : StatusSpawned) : Except String Bool :=
  match sp with
  | .ioError m =>
    .error ("Failed to `git cat-file -e " ++ branch ++ ":" ++ file ++ "`: " ++ m)
  | .ok st => .ok (decide (st.code = 0))

end Proc

/-- Whether an `Except` computation succeeded (the observable success
signal of a fallible call, matching `Result::is_ok`). -/
def exceptIsOk {ε α : Type} : Except ε α → Bool
  | .ok _ => true
  | .error _ => false

/-! ### Concrete repositories used to instantiate the theorems -/

/-- Pristine starter commit: one file `f` at `v0`. -/
def exInitC : GCommit := ⟨none, [("f", "v0")], "Initial commit"⟩

/-- Upstream commit adding file `g`. -/
def exAddG : GCommit := ⟨some 0, [("f", "v0"), ("g", "g1")], "add g"⟩

/-- Upstream commit editing file `f`. -/
def exEditF : GCommit := ⟨some 0, [("f", "v1")], "edit f"⟩

/-- A repository checked out on branch `t` at the initial commit, with
upstream branches `b1` (initial) and `b2` (one commit ahead). -/
def exRepo : GitState :=
  { commits := [(0, exInitC), (1, exAddG)]
    nextId := 2
    branches := [("main", 0), ("t", 0), ("upstream/b1", 0), ("upstream/b2", 1)]
    tags := [("initial", 0)]
    origin := []
    headBranch := "t"
    workTree := [("f", "v0")]
    remoteRejects := []
    savedRef := none }

/-- Branch-local drift commit: adds a file `x` that no upstream commit
touches, on top of the initial commit. -/
def exDriftC : GCommit := ⟨some 0, [("f", "v0"), ("x", "1")], "add x"⟩

/-- Same repository but where branch `t` carries committed drift: `t` points
at the `add x` commit and the working tree is clean — identical to that
commit's tree. -/
def exRepoDriftC : GitState :=
  { exRepo with
    commits := [(0, exInitC), (1, exAddG), (2, exDriftC)]
    nextId := 3
    branches := [("main", 0), ("t", 2), ("upstream/b1", 0), ("upstream/b2", 1)]
    workTree := [("f", "v0"), ("x", "1")] }

/-- Same repository but where upstream edited `f` and the branch carries a
conflicting edit of `f`. -/
def exRepoConf : GitState :=
  { exRepo with commits := [(0, exInitC), (1, exEditF)], workTree := [("f", "vX")] }

/-- The same repository checked out on `main`, as `create_branch_from`
expects. -/
def exRepoMain : GitState := { exRepo with headBranch := "main" }

/-- A concrete strategy a template may select: commit the starter code and
report `Success` (the shape of the patch strategy's fast path). -/
def exStrategy : String → String → GitState → GitState × GitResult MergeType :=
  fun _ _ st => (gitAddCommit "Starter code" st, .ok .Success)

/-- The repository after `git checkout -b lesson1` from `main`. -/
def exLesson1 : GitState :=
  { exRepoMain with
    branches := ("lesson1", 0) :: exRepoMain.branches
    headBranch := "lesson1" }

/-- The repository on `main` but with a remote that rejects pushes of
`lesson1`. -/
def exRepoRej : GitState := { exRepoMain with remoteRejects := ["lesson1"] }

/-- `exRepoRej` after `git checkout -b lesson1`. -/
def exLesson1Rej : GitState :=
  { exRepoRej with
    branches := ("lesson1", 0) :: exRepoRej.branches
    headBranch := "lesson1" }

/-- Patch taking `f` from `v0` to `v1`. -/
def exP1 : Patch := ⟨[([("f", "v0")], [("f", "v1")])], "error: patch does not apply"⟩

/-- Patch taking `f` from `v1` to `v2` (only applies after `exP1`). -/
def exP2 : Patch := ⟨[([("f", "v1")], [("f", "v2")])], "error: patch does not apply"⟩

/-- Well-formedness of the allocation counter: every stored commit id is
below `nextId`, so freshly allocated ids never collide with existing ones. -/
def IdsBounded (s : GitState) : Prop := ∀ p ∈ s.commits, p.1 < s.nextId

instance (s : GitState) : Decidable (IdsBounded s) :=
  inferInstanceAs (Decidable (∀ p ∈ s.commits, p.1 < s.nextId))

deriving instance DecidableEq for Except

/-- A materialised commit range is chained when each entry's three-way base
tree is the previous entry's snapshot tree (the first entry's base being the
range base's tree), ending at tree `tEnd`. -/
inductive Chained : FileTree → List (FileTree × GCommit) → FileTree → Prop where
  | nil (t : FileTree) : Chained t [] t
  | cons (t : FileTree) (c : GCommit) (rest : List (FileTree × GCommit))
      (tEnd : FileTree) : Chained c.tree rest tEnd →
      Chained t ((t, c) :: rest) tEnd

/-- Ancestry in the commit graph: `Reach commits a b` holds when `b` is `a`
or an ancestor of `a` along parent links. -/
inductive Reach (commits : List (Nat × GCommit)) : Nat → Nat → Prop where
  | refl (a : Nat) : Reach commits a a
  | step (a p b : Nat) (c : GCommit) : alookup a commits = some c →
      c.parent = some p → Reach commits p b → Reach commits a b

/-! ### Helper lemmas -/

lemma alookup_cons_self {α β : Type} [DecidableEq α] (k : α) (v : β)
    (l : List (α × β)) : alookup k ((k, v) :: l) = some v := by
  simp [alookup]

lemma alookup_cons_ne {α β : Type} [DecidableEq α] (k a : α) (v : β)
    (l : List (α × β)) (h : a ≠ k) : alookup k ((a, v) :: l) = alookup k l := by
  simp [alookup, h]

lemma getLast?_cons_isSome {α : Type} (a : α) (as : List α) :
    ((a :: as).getLast?).isSome = true := by
  induction as generalizing a with
  | nil => rfl
  | cons b bs ih =>
    rw [List.getLast?_cons_cons]
    exact ih b

/-- Relation between the stateful patch loop and its pure tree-level view:
`applySeq` only rewrites the working tree, patch by patch, stopping with an
error at the first patch that does not apply. -/
lemma applySeq_spec (ps : List Patch) (s : GitState) :
    (∀ t2, applyTrees ps s.workTree = some t2 →
      applySeq ps s = ({ s with workTree := t2 }, .ok ())) ∧
    (applyTrees ps s.workTree = none → ∃ s1 e, applySeq ps s = (s1, .error e)) := by
  induction ps generalizing s with
  | nil =>
    constructor
    · intro t2 ht
      simp only [applyTrees] at ht
      cases ht
      rfl
    · intro ht
      simp [applyTrees] at ht
  | cons p rest ih =>
    constructor
    · intro t2 ht
      simp only [applyTrees] at ht
      cases hl : alookup s.workTree p.applies with
      | none => rw [hl] at ht; exact absurd ht (by simp)
      | some t1 =>
        rw [hl] at ht
        have := (ih { s with workTree := t1 }).1 t2 ht
        simp only [applySeq, gitApply, hl]
        exact this
    · intro ht
      simp only [applyTrees] at ht
      cases hl : alookup s.workTree p.applies with
      | none =>
        refine ⟨s, "git apply failed with stderr:\n" ++ p.failStderr, ?_⟩
        simp only [applySeq, gitApply, hl]
      | some t1 =>
        rw [hl] at ht
        have := (ih { s with workTree := t1 }).2 ht
        simpa only [applySeq, gitApply, hl] using this

/-! ### Claim theorems: the patch application strategy -/

/-- C9: on the empty patch sequence `apply_patch` panics (the
`patches.last().unwrap()`), and on any non-empty sequence the panic branch is
unreachable — every run ends in a normal value or an error. -/
theorem apply_patch_empty_panics (s : GitState) :
    apply_patch s [] = (s, .panic) ∧
    ∀ ps : List Patch, ps ≠ [] → (apply_patch s ps).2 ≠ GitResult.panic := by
  constructor
  · rfl
  · intro ps hne
    obtain ⟨lp, hl⟩ : ∃ lp, ps.getLast? = some lp := by
      cases ps with
      | nil => exact absurd rfl hne
      | cons a as => exact Option.isSome_iff_exists.mp (getLast?_cons_isSome a as)
    simp only [apply_patch, hl]
    cases hap : gitApply lp s with
    | mk s1 r1 =>
      cases r1 with
      | ok u => simp [hap, finishStarter]
      | error e1 =>
        cases hr : gitResetHard INITIAL_TAG s1 with
        | mk s2 r2 =>
          cases r2 with
          | error e2 => simp [hap, hr]
          | ok u2 =>
            cases has : applySeq ps s2 with
            | mk s3 r3 =>
              cases r3 with
              | error e3 => simp [hap, hr, has]
              | ok u3 => simp [hap, hr, has, finishStarter]

/-- Witness for C9 at a concrete repository and patch list. -/
theorem apply_patch_empty_panics_witness :
    (apply_patch
      { commits := [(0, ⟨none, [("f", "v0")], "Initial commit"⟩)]
        nextId := 1
        branches := [("main", 0), ("t", 0)]
        tags := [("initial", 0)]
        origin := []
        headBranch := "t"
        workTree := [("f", "v0")]
        remoteRejects := []
        savedRef := none }
      [⟨[([("f", "v0")], [("f", "v1")])], "err"⟩]).2 ≠ GitResult.panic :=
  (apply_patch_empty_panics _).2 _ (by decide)

/-- C3: when the last patch of a non-empty sequence applies cleanly to the
current working tree, `apply_patch` returns `Success`, the working tree is
the result of applying only that last patch, and — on every successful run,
fast path or fallback — the final step stages everything and creates a single
commit with the fixed message 'Starter code'. -/
theorem apply_patch_fast_path_success (s : GitState) (ps : List Patch)
    (lp : Patch) (t2 : FileTree)
    (hlast : ps.getLast? = some lp)
    (hok : alookup s.workTree lp.applies = some t2) :
    (∃ st h gc, apply_patch s ps = (st, .ok .Success) ∧ st.workTree = t2 ∧
      alookup st.headBranch st.branches = some h ∧
      alookup h st.commits = some gc ∧
      gc.message = "Starter code" ∧ gc.tree = t2 ∧ gc.parent = headId s) ∧
    (∀ s0 ps0 st mt, apply_patch s0 ps0 = (st, .ok mt) →
      ∃ h gc, alookup st.headBranch st.branches = some h ∧
        alookup h st.commits = some gc ∧ gc.message = "Starter code") := by
  constructor
  · refine ⟨gitAddCommit "Starter code" { s with workTree := t2 }, s.nextId,
      ⟨headId s, t2, "Starter code"⟩, ?_, rfl, ?_, ?_, rfl, rfl, rfl⟩
    · simp only [apply_patch, hlast, gitApply, hok, finishStarter]
    · exact alookup_cons_self _ _ _
    · exact alookup_cons_self _ _ _
  · intro s0 ps0 st mt hap
    cases hg : ps0.getLast? with
    | none =>
      simp only [apply_patch, hg] at hap
      exact absurd (congrArg Prod.snd hap) (by simp)
    | some lp0 =>
      simp only [apply_patch, hg] at hap
      cases hga : gitApply lp0 s0 with
      | mk s1 r1 =>
        cases r1 with
        | ok u =>
          simp only [hga, finishStarter] at hap
          have hst : gitAddCommit "Starter code" s1 = st := congrArg Prod.fst hap
          rw [← hst]
          exact ⟨s1.nextId, ⟨headId s1, s1.workTree, "Starter code"⟩,
            alookup_cons_self _ _ _, alookup_cons_self _ _ _, rfl⟩
        | error e1 =>
          cases hr : gitResetHard INITIAL_TAG s1 with
          | mk s2 r2 =>
            cases r2 with
            | error e2 =>
              simp only [hga, hr] at hap
              exact absurd (congrArg Prod.snd hap) (by simp)
            | ok u2 =>
              cases has : applySeq ps0 s2 with
              | mk s3 r3 =>
                cases r3 with
                | error e3 =>
                  simp only [hga, hr, has] at hap
                  exact absurd (congrArg Prod.snd hap) (by simp)
                | ok u3 =>
                  simp only [hga, hr, has, finishStarter] at hap
                  have hst : gitAddCommit "Starter code" s3 = st :=
                    congrArg Prod.fst hap
                  rw [← hst]
                  exact ⟨s3.nextId, ⟨headId s3, s3.workTree, "Starter code"⟩,
                    alookup_cons_self _ _ _, alookup_cons_self _ _ _, rfl⟩

/-- Witness for C3 at a concrete repository whose tree the single patch
applies to cleanly. -/
theorem apply_patch_fast_path_success_witness :
    (∃ st h gc, apply_patch exRepo [exP1] = (st, .ok .Success) ∧
      st.workTree = [("f", "v1")] ∧
      alookup st.headBranch st.branches = some h ∧
      alookup h st.commits = some gc ∧
      gc.message = "Starter code" ∧ gc.tree = [("f", "v1")] ∧
      gc.parent = headId exRepo) ∧
    (∀ s0 ps0 st mt, apply_patch s0 ps0 = (st, .ok mt) →
      ∃ h gc, alookup st.headBranch st.branches = some h ∧
        alookup h st.commits = some gc ∧ gc.message = "Starter code") :=
  apply_patch_fast_path_success exRepo [exP1] exP1 [("f", "v1")]
    (by decide) (by decide)

/-- C1: when the last patch of a non-empty sequence fails to apply on its
own, `apply_patch` hard-resets to the `initial` tag and replays every patch
of the sequence, in order, from the tagged commit's tree; if the whole replay
succeeds the result is `StarterReset` with a final 'Starter code' commit, and
if any replayed patch fails the operation fails with an error — there is no
further fallback. -/
theorem apply_patch_fallback_reset_replay (s : GitState) (ps : List Patch)
    (lp : Patch) (c0 : Nat) (cc : GCommit)
    (hlast : ps.getLast? = some lp)
    (hfail : alookup s.workTree lp.applies = none)
    (hres : resolveRef INITIAL_TAG s = some c0)
    (hcc : alookup c0 s.commits = some cc) :
    (∀ tfin, applyTrees ps cc.tree = some tfin →
      ∃ st h gc, apply_patch s ps = (st, .ok .StarterReset) ∧
        st.workTree = tfin ∧
        alookup st.headBranch st.branches = some h ∧
        alookup h st.commits = some gc ∧
        gc.message = "Starter code" ∧ gc.tree = tfin) ∧
    (applyTrees ps cc.tree = none → ∃ st e, apply_patch s ps = (st, .error e)) := by
  constructor
  · intro tfin ht
    have hseq :=
      (applySeq_spec ps
        { s with branches := (s.headBranch, c0) :: s.branches, workTree := cc.tree }).1
        tfin ht
    refine ⟨gitAddCommit "Starter code"
      { s with branches := (s.headBranch, c0) :: s.branches, workTree := tfin },
      s.nextId, ⟨alookup s.headBranch ((s.headBranch, c0) :: s.branches), tfin,
        "Starter code"⟩, ?_, rfl, ?_, ?_, rfl, rfl⟩
    · simp only [apply_patch, hlast, gitApply, hfail, gitResetHard, hres, hcc,
        hseq, finishStarter]
    · exact alookup_cons_self _ _ _
    · exact alookup_cons_self _ _ _
  · intro ht
    obtain ⟨s1, e, hseq⟩ :=
      (applySeq_spec ps
        { s with branches := (s.headBranch, c0) :: s.branches, workTree := cc.tree }).2
        ht
    refine ⟨s1, e, ?_⟩
    simp only [apply_patch, hlast, gitApply, hfail, gitResetHard, hres, hcc, hseq]

/-- Witness for C1: patch `exP2` does not apply alone on the initial tree, so
the repository is reset to the `initial` tag and both patches replay. -/
theorem apply_patch_fallback_reset_replay_witness :
    (∀ tfin, applyTrees [exP1, exP2] exInitC.tree = some tfin →
      ∃ st h gc, apply_patch exRepo [exP1, exP2] = (st, .ok .StarterReset) ∧
        st.workTree = tfin ∧
        alookup st.headBranch st.branches = some h ∧
        alookup h st.commits = some gc ∧
        gc.message = "Starter code" ∧ gc.tree = tfin) ∧
    (applyTrees [exP1, exP2] exInitC.tree = none →
      ∃ st e, apply_patch exRepo [exP1, exP2] = (st, .error e)) :=
  apply_patch_fallback_reset_replay exRepo [exP1, exP2] exP2 0 exInitC
    (by decide) (by decide) (by decide) (by decide)

/-- C6: a git subprocess exiting non-zero surfaces as a fatal error carrying
the captured stderr text verbatim — `git_core` wraps it as the inner error,
`git_output` renders it into the fatal message, and `apply` does the same for
`git apply -`.  Each model function consumes the outcome of exactly one
subprocess run, so a failed command is never retried, and whether a run
counts as success or as the expected-conflict trigger is a function of the
exit signal alone, identical for any two runs with the same exit signal
regardless of their stderr text. -/
theorem nonzero_exit_is_fatal_with_stderr :
    (∀ out : SubprocOut, out.status.code ≠ 0 →
      Proc.git_core (.ok out) = .ok (.error out.stderr) ∧
      Proc.git_output (.ok out) =
        .error ("git failed with stderr:\n" ++ out.stderr)) ∧
    (∀ out : SubprocOut, out.status.code ≠ 0 →
      Proc.apply (.ok out) =
        .error ("git apply failed with stderr:\n" ++ out.stderr)) ∧
    (∀ out1 out2 : SubprocOut, (out1.status.code = 0 ↔ out2.status.code = 0) →
      exceptIsOk (Proc.apply (.ok out1)) = exceptIsOk (Proc.apply (.ok out2)) ∧
      exceptIsOk (Proc.git_output (.ok out1)) =
        exceptIsOk (Proc.git_output (.ok out2))) := by
  refine ⟨?_, ?_, ?_⟩
  · intro out h
    constructor
    · simp [Proc.git_core, h]
    · simp [Proc.git_output, Proc.git_core, h]
  · intro out h
    simp [Proc.apply, h]
  · intro out1 out2 h
    by_cases h1 : out1.status.code = 0
    · have h2 := h.mp h1
      constructor
      · simp [Proc.apply, h1, h2]
      · simp [Proc.git_output, Proc.git_core, h1, h2, exceptIsOk]
    · have h2 : ¬out2.status.code = 0 := fun hc => h1 (h.mpr hc)
      constructor
      · simp [Proc.apply, h1, h2, exceptIsOk]
      · simp [Proc.git_output, Proc.git_core, h1, h2, exceptIsOk]

/-- Witness for C6: a `git apply` run exiting 1 with stderr text `boom`. -/
theorem nonzero_exit_is_fatal_with_stderr_witness :
    Proc.apply (.ok ⟨⟨1⟩, "", "boom"⟩) =
      .error ("git apply failed with stderr:\n" ++ "boom") :=
  nonzero_exit_is_fatal_with_stderr.2.1 ⟨⟨1⟩, "", "boom"⟩ (by decide)

/-- C10: `contains_file` answers `Ok(false)` whenever `git cat-file -e`
exits non-zero — for any non-zero code, so a missing file (exit 1) and a
nonexistent ref (exit 128) are indistinguishable to the caller — answers
`Ok(true)` on exit zero, and produces an error only when the subprocess
itself cannot be run. -/
theorem contains_file_nonzero_is_false (branch file : String) :
    (∀ st : ExitStatus, st.code ≠ 0 →
      Proc.contains_file branch file (.ok st) = .ok false) ∧
    (∀ st : ExitStatus, st.code = 0 →
      Proc.contains_file branch file (.ok st) = .ok true) ∧
    (∀ m, ∃ e, Proc.contains_file branch file (.ioError m) = .error e) ∧
    (∀ st1 st2 : ExitStatus, st1.code ≠ 0 → st2.code ≠ 0 →
      Proc.contains_file branch file (.ok st1) =
        Proc.contains_file branch file (.ok st2)) := by
  refine ⟨?_, ?_, ?_, ?_⟩
  · intro st h
    simp [Proc.contains_file, h]
  · intro st h
    simp [Proc.contains_file, h]
  · intro m
    exact ⟨_, rfl⟩
  · intro st1 st2 h1 h2
    simp [Proc.contains_file, h1, h2]

/-- Witness for C10: exit 1 (file absent) and exit 128 (branch absent) both
yield `Ok(false)` for the same query. -/
theorem contains_file_nonzero_is_false_witness :
    Proc.contains_file "lesson1" "rqst.toml" (.ok ⟨1⟩) =
      Proc.contains_file "lesson1" "rqst.toml" (.ok ⟨128⟩) :=
  (contains_file_nonzero_is_false "lesson1" "rqst.toml").2.2.2 ⟨1⟩ ⟨128⟩
    (by decide) (by decide)

/-- C5: when every step succeeds, `create_branch_from` creates and checks out
the target branch, runs the selected strategy, pushes the branch to `origin`
with upstream tracking, captures the head commit of the new branch (read
after strategy and push, before leaving the branch), checks out `main`, and
returns the captured commit paired with the strategy's `MergeType`, leaving
the repository checked out on `main`. -/
theorem create_branch_from_success_contract
    (template : String → String → GitState → GitState × GitResult MergeType)
    (base target : String) (s s1 s2 : GitState)
    (h0 hd m : Nat) (mc : GCommit) (mt : MergeType)
    (hnb : alookup target s.branches = none)
    (hh0 : headId s = some h0)
    (hs1 : s1 = { s with branches := (target, h0) :: s.branches, headBranch := target })
    (htm : template base target s1 = (s2, .ok mt))
    (hhb : s2.headBranch = target)
    (hbr : alookup target s2.branches = some hd)
    (hpr : target ∉ s2.remoteRejects)
    (hm : alookup "main" s2.branches = some m)
    (hmc : alookup m s2.commits = some mc) :
    ∃ s4, create_branch_from template base target s = (s4, .ok (hd, mt)) ∧
      s4.headBranch = "main" ∧ s4.workTree = mc.tree ∧
      s4.branches = s2.branches ∧ alookup target s4.origin = some hd := by
  subst hs1
  refine ⟨{ s2 with
      origin := (target, hd) :: s2.origin
      headBranch := "main"
      workTree := mc.tree }, ?_, rfl, rfl, rfl, alookup_cons_self _ _ _⟩
  simp only [create_branch_from, gitCheckoutNew, hnb, hh0, htm, gitPush,
    if_neg hpr, hbr]
  simp only [head_commit, headId, hhb, hbr, gitCheckout, hm, hmc]

/-- Witness for C5 at the concrete repository, deriving branch `lesson1`. -/
theorem create_branch_from_success_contract_witness :
    ∃ s4, create_branch_from exStrategy "b1" "lesson1" exRepoMain =
        (s4, .ok (2, .Success)) ∧
      s4.headBranch = "main" ∧ s4.workTree = exInitC.tree ∧
      s4.branches = (exStrategy "b1" "lesson1" exLesson1).1.branches ∧
      alookup "lesson1" s4.origin = some 2 :=
  create_branch_from_success_contract exStrategy "b1" "lesson1" exRepoMain
    exLesson1 (exStrategy "b1" "lesson1" exLesson1).1
    0 2 0 exInitC .Success
    (by decide) (by decide) (by decide) (by decide) (by decide) (by decide)
    (by decide) (by decide) (by decide)

/-- C7: the `MergeType` a strategy reports does not gate the orchestrator's
behaviour.  If two strategies drive git identically and differ only in the
`MergeType` they return, `create_branch_from` performs the same operations,
ends in the same state, and returns the same head commit — only the reported
`MergeType` differs. -/
theorem merge_type_does_not_gate
    (f g : String → String → GitState → GitState × GitResult MergeType)
    (mt1 : MergeType) (base target : String) (s : GitState)
    (hfg : ∀ b t st, f b t st =
      ((g b t st).1, GitResult.map (fun _ => mt1) (g b t st).2)) :
    create_branch_from f base target s =
      ((create_branch_from g base target s).1,
        GitResult.map (fun p => (p.1, mt1))
          (create_branch_from g base target s).2) := by
  simp only [create_branch_from]
  cases hcn : gitCheckoutNew target s with
  | mk s1 r1 =>
    cases r1 with
    | error e => simp [GitResult.map]
    | ok u =>
      dsimp only
      rw [hfg base target s1]
      cases hg2 : g base target s1 with
      | mk s2 r2 =>
        cases r2 with
        | error e => simp [GitResult.map]
        | panic => simp [GitResult.map]
        | ok mt2 =>
          dsimp only [GitResult.map]
          cases hp : gitPush target s2 with
          | mk s3 r3 =>
            cases r3 with
            | error e => simp [GitResult.map]
            | ok u3 =>
              dsimp only
              cases hh : head_commit s3 with
              | error e => simp [GitResult.map]
              | ok h =>
                dsimp only
                cases hco : gitCheckout "main" s3 with
                | mk s4 r4 =>
                  cases r4 with
                  | error e => simp [GitResult.map]
                  | ok u4 => simp [GitResult.map]

/-- Witness for C7: two strategies identical up to the reported `MergeType`
(`SolutionReset` versus `Success`) drive the orchestrator identically. -/
theorem merge_type_does_not_gate_witness :
    create_branch_from (fun _ _ st => (gitAddCommit "Starter code" st,
        GitResult.ok MergeType.SolutionReset)) "b1" "lesson1" exRepoMain =
      ((create_branch_from exStrategy "b1" "lesson1" exRepoMain).1,
        GitResult.map (fun p => (p.1, MergeType.SolutionReset))
          (create_branch_from exStrategy "b1" "lesson1" exRepoMain).2) :=
  merge_type_does_not_gate _ exStrategy .SolutionReset "b1" "lesson1" exRepoMain
    (fun _ _ _ => rfl)

/-- C8: if the push to `origin` fails, `create_branch_from` returns the push
error immediately: no head commit is captured, `main` is not checked out, the
repository is left checked out on the target branch, and the strategy's
commit exists only locally (`origin` still has no entry for the branch). -/
theorem push_failure_leaves_target_checked_out
    (template : String → String → GitState → GitState × GitResult MergeType)
    (base target : String) (s s1 s2 : GitState) (mt : MergeType) (h0 : Nat)
    (hnb : alookup target s.branches = none)
    (hh0 : headId s = some h0)
    (hs1 : s1 = { s with branches := (target, h0) :: s.branches, headBranch := target })
    (htm : template base target s1 = (s2, .ok mt))
    (hhb : s2.headBranch = target)
    (hrej : target ∈ s2.remoteRejects)
    (horig : alookup target s2.origin = none) :
    create_branch_from template base target s =
      (s2, .error ("git failed: push -u origin " ++ target)) ∧
    s2.headBranch = target ∧ alookup target s2.origin = none := by
  subst hs1
  refine ⟨?_, hhb, horig⟩
  simp only [create_branch_from, gitCheckoutNew, hnb, hh0, htm, gitPush,
    if_pos hrej]

/-- Witness for C8: the remote rejects `lesson1`, so the orchestrator stops
at the push, leaving the repository on the target branch with the commit
unpublished. -/
theorem push_failure_leaves_target_checked_out_witness :
    create_branch_from exStrategy "b1" "lesson1" exRepoRej =
      (gitAddCommit "Starter code" exLesson1Rej,
        .error ("git failed: push -u origin " ++ "lesson1")) ∧
    (gitAddCommit "Starter code" exLesson1Rej).headBranch = "lesson1" ∧
    alookup "lesson1" (gitAddCommit "Starter code" exLesson1Rej).origin = none :=
  push_failure_leaves_target_checked_out exStrategy "b1" "lesson1" exRepoRej
    exLesson1Rej (gitAddCommit "Starter code" exLesson1Rej) .Success 0
    (by decide) (by decide) (by decide) (by decide) (by decide) (by decide)
    (by decide)

lemma alookup_mem {α β : Type} [DecidableEq α] (k : α) (v : β) :
    ∀ l : List (α × β), alookup k l = some v → (k, v) ∈ l := by
  intro l
  induction l with
  | nil => intro h; simp [alookup] at h
  | cons p rest ih =>
    obtain ⟨a, b⟩ := p
    intro h
    by_cases ha : a = k
    · subst ha
      rw [alookup_cons_self] at h
      cases h
      exact List.mem_cons_self _ _
    · rw [alookup_cons_ne _ _ _ _ ha] at h
      exact List.mem_cons_of_mem _ (ih h)

lemma reach_trans {commits : List (Nat × GCommit)} {a b c : Nat}
    (h1 : Reach commits a b) (h2 : Reach commits b c) : Reach commits a c := by
  induction h1 with
  | refl a => exact h2
  | step a p b gc hl hp hr ih => exact .step a p c gc hl hp (ih h2)

lemma chained_nil_inv {t tEnd : FileTree} (h : Chained t [] tEnd) : tEnd = t := by
  cases h; rfl

lemma chained_cons_inv {t bt tEnd : FileTree} {c : GCommit}
    {rest : List (FileTree × GCommit)}
    (h : Chained t ((bt, c) :: rest) tEnd) :
    bt = t ∧ Chained c.tree rest tEnd := by
  cases h
  exact ⟨rfl, by assumption⟩

lemma resolveRef_congr (r : String) (s1 s2 : GitState)
    (ht : s1.tags = s2.tags)
    (hb : alookup r s1.branches = alookup r s2.branches) :
    resolveRef r s1 = resolveRef r s2 := by
  simp only [resolveRef, ht, hb]

lemma replayList_headBranch (op : Nat) (ot : FileTree) :
    ∀ (items : List (FileTree × GCommit)) (s : GitState),
      (replayList op ot items s).1.headBranch = s.headBranch := by
  intro items
  induction items with
  | nil => intro s; rfl
  | cons item rest ih =>
    intro s
    obtain ⟨bt, c⟩ := item
    simp only [replayList]
    cases hp : pickOnto bt c.tree s.workTree with
    | none => rfl
    | some t2 => exact ih (mkCommit c.message t2 s)

lemma replayList_tags (op : Nat) (ot : FileTree) :
    ∀ (items : List (FileTree × GCommit)) (s : GitState),
      (replayList op ot items s).1.tags = s.tags := by
  intro items
  induction items with
  | nil => intro s; rfl
  | cons item rest ih =>
    intro s
    obtain ⟨bt, c⟩ := item
    simp only [replayList]
    cases hp : pickOnto bt c.tree s.workTree with
    | none => rfl
    | some t2 => exact ih (mkCommit c.message t2 s)

lemma replayList_nextId (op : Nat) (ot : FileTree) :
    ∀ (items : List (FileTree × GCommit)) (s : GitState),
      s.nextId ≤ (replayList op ot items s).1.nextId := by
  intro items
  induction items with
  | nil => intro s; exact le_refl _
  | cons item rest ih =>
    intro s
    obtain ⟨bt, c⟩ := item
    simp only [replayList]
    cases hp : pickOnto bt c.tree s.workTree with
    | none => exact le_refl _
    | some t2 => exact le_trans (Nat.le_succ _) (ih (mkCommit c.message t2 s))

lemma replayList_commits (op : Nat) (ot : FileTree) :
    ∀ (items : List (FileTree × GCommit)) (s : GitState) (k : Nat),
      k < s.nextId →
      alookup k (replayList op ot items s).1.commits = alookup k s.commits := by
  intro items
  induction items with
  | nil => intro s k _; rfl
  | cons item rest ih =>
    intro s k hk
    obtain ⟨bt, c⟩ := item
    simp only [replayList]
    cases hp : pickOnto bt c.tree s.workTree with
    | none => rfl
    | some t2 =>
      have h1 := ih (mkCommit c.message t2 s) k (lt_trans hk (Nat.lt_succ_self _))
      rw [h1]
      exact alookup_cons_ne _ _ _ _ (by omega)

lemma replayList_branches (op : Nat) (ot : FileTree) :
    ∀ (items : List (FileTree × GCommit)) (s : GitState) (b : String),
      b ≠ s.headBranch →
      alookup b (replayList op ot items s).1.branches = alookup b s.branches := by
  intro items
  induction items with
  | nil => intro s b _; rfl
  | cons item rest ih =>
    intro s b hb
    obtain ⟨bt, c⟩ := item
    simp only [replayList]
    cases hp : pickOnto bt c.tree s.workTree with
    | none => rfl
    | some t2 =>
      have h1 := ih (mkCommit c.message t2 s) b hb
      rw [h1]
      exact alookup_cons_ne _ _ _ _ (Ne.symm hb)

lemma replayList_err (op : Nat) (ot : FileTree) :
    ∀ (items : List (FileTree × GCommit)) (s s1 : GitState) (e : String),
      replayList op ot items s = (s1, .error e) →
      s1.savedRef = some (op, ot) := by
  intro items
  induction items with
  | nil =>
    intro s s1 e h
    exact absurd (congrArg Prod.snd h) (by simp [replayList])
  | cons item rest ih =>
    intro s s1 e h
    obtain ⟨bt, c⟩ := item
    simp only [replayList] at h
    cases hp : pickOnto bt c.tree s.workTree with
    | none =>
      simp only [hp, Prod.mk.injEq] at h
      rw [← h.1]
    | some t2 =>
      simp only [hp] at h
      exact ih _ _ _ h

lemma walkBack_chained (s : GitState) (bid : Nat) (bc : GCommit)
    (hbc : alookup bid s.commits = some bc) :
    ∀ (fuel cur : Nat) (cc : GCommit) (acc items : List (FileTree × GCommit))
      (tEnd : FileTree),
      alookup cur s.commits = some cc →
      Chained cc.tree acc tEnd →
      walkBack fuel s bid cur acc = some items →
      Chained bc.tree items tEnd := by
  intro fuel
  induction fuel with
  | zero =>
    intro cur cc acc items tEnd hcur hch hw
    by_cases hc : cur = bid
    · subst hc
      simp only [walkBack, if_pos rfl] at hw
      cases hw
      rw [hbc] at hcur
      cases hcur
      exact hch
    · simp only [walkBack, if_neg hc] at hw
      exact absurd hw (by simp)
  | succ fuel ih =>
    intro cur cc acc items tEnd hcur hch hw
    by_cases hc : cur = bid
    · subst hc
      simp only [walkBack, if_pos rfl] at hw
      cases hw
      rw [hbc] at hcur
      cases hcur
      exact hch
    · simp only [walkBack, if_neg hc, hcur] at hw
      cases hpar : cc.parent with
      | none =>
        simp only [hpar] at hw
        exact absurd hw (by simp)
      | some p =>
        simp only [hpar] at hw
        cases hpc : alookup p s.commits with
        | none =>
          simp only [hpc] at hw
          exact absurd hw (by simp)
        | some pc =>
          simp only [hpc] at hw
          exact ih p pc ((pc.tree, cc) :: acc) items tEnd hpc
            (Chained.cons pc.tree cc acc tEnd hch) hw

lemma replayList_clean (op : Nat) (ot : FileTree) :
    ∀ (items : List (FileTree × GCommit)) (s : GitState) (tEnd : FileTree)
      (h : Nat),
      Chained s.workTree items tEnd →
      headId s = some h →
      IdsBounded s →
      ∃ s1, replayList op ot items s = (s1, .ok ()) ∧
        s1.workTree = tEnd ∧
        IdsBounded s1 ∧
        ∃ h1, headId s1 = some h1 ∧
          Reach s1.commits h1 h ∧
          ∀ p ∈ items, ∃ cid gc, Reach s1.commits h1 cid ∧
            alookup cid s1.commits = some gc ∧
            gc.message = p.2.message ∧ gc.tree = p.2.tree := by
  intro items
  induction items with
  | nil =>
    intro s tEnd h hch hh hb
    have ht := chained_nil_inv hch
    subst ht
    exact ⟨s, rfl, rfl, hb, h, hh, .refl h, by simp⟩
  | cons item rest ih =>
    intro s tEnd h hch hh hb
    obtain ⟨bt, c⟩ := item
    obtain ⟨hbt, hch2⟩ := chained_cons_inv hch
    subst hbt
    have hpick : pickOnto s.workTree c.tree s.workTree = some c.tree := by
      simp [pickOnto]
    have hh2 : headId (mkCommit c.message c.tree s) = some s.nextId := by
      simp [headId, mkCommit, alookup_cons_self]
    have hb2 : IdsBounded (mkCommit c.message c.tree s) := by
      intro p hp
      rcases List.mem_cons.mp hp with heq | hmem
      · subst heq; exact Nat.lt_succ_self _
      · exact lt_trans (hb p hmem) (Nat.lt_succ_self _)
    obtain ⟨s1, hrep, hwt, hb1, h1, hh1, hreach, hitems⟩ :=
      ih (mkCommit c.message c.tree s) tEnd s.nextId hch2 hh2 hb2
    have hlook : alookup s.nextId s1.commits =
        some ⟨headId s, c.tree, c.message⟩ := by
      have hfr := replayList_commits op ot rest (mkCommit c.message c.tree s)
        s.nextId (Nat.lt_succ_self _)
      rw [hrep] at hfr
      rw [hfr]
      exact alookup_cons_self _ _ _
    refine ⟨s1, ?_, hwt, hb1, h1, hh1, ?_, ?_⟩
    · simp only [replayList, hpick]
      exact hrep
    · refine reach_trans hreach (Reach.step _ h _ ⟨headId s, c.tree, c.message⟩
        hlook ?_ (.refl h))
      simpa using hh
    · intro p hp
      rcases List.mem_cons.mp hp with heq | hmem
      · subst heq
        exact ⟨s.nextId, ⟨headId s, c.tree, c.message⟩, hreach, hlook, rfl, rfl⟩
      · exact hitems p hmem

lemma replayList_ok_history (op : Nat) (ot : FileTree) :
    ∀ (items : List (FileTree × GCommit)) (s s1 : GitState),
      replayList op ot items s = (s1, .ok ()) →
      ∀ h, headId s = some h → IdsBounded s →
      ∃ h1, headId s1 = some h1 ∧ Reach s1.commits h1 h ∧
        ∀ p ∈ items, ∃ cid gc, Reach s1.commits h1 cid ∧
          alookup cid s1.commits = some gc ∧ gc.message = p.2.message := by
  intro items
  induction items with
  | nil =>
    intro s s1 hrep h hh hb
    have hs : s = s1 := congrArg Prod.fst hrep
    subst hs
    exact ⟨h, hh, .refl h, by simp⟩
  | cons item rest ih =>
    intro s s1 hrep h hh hb
    obtain ⟨bt, c⟩ := item
    simp only [replayList] at hrep
    cases hp : pickOnto bt c.tree s.workTree with
    | none =>
      simp only [hp] at hrep
      exact absurd (congrArg Prod.snd hrep) (by simp)
    | some t2 =>
      simp only [hp] at hrep
      have hh2 : headId (mkCommit c.message t2 s) = some s.nextId := by
        simp [headId, mkCommit, alookup_cons_self]
      have hb2 : IdsBounded (mkCommit c.message t2 s) := by
        intro p hp2
        rcases List.mem_cons.mp hp2 with heq | hmem
        · subst heq; exact Nat.lt_succ_self _
        · exact lt_trans (hb p hmem) (Nat.lt_succ_self _)
      obtain ⟨h1, hh1, hreach, hitems⟩ :=
        ih (mkCommit c.message t2 s) s1 hrep s.nextId hh2 hb2
      have hlook : alookup s.nextId s1.commits =
          some ⟨headId s, t2, c.message⟩ := by
        have hfr := replayList_commits op ot rest (mkCommit c.message t2 s)
          s.nextId (Nat.lt_succ_self _)
        rw [hrep] at hfr
        rw [hfr]
        exact alookup_cons_self _ _ _
      refine ⟨h1, hh1, ?_, ?_⟩
      · refine reach_trans hreach (Reach.step _ h _ ⟨headId s, t2, c.message⟩
          hlook ?_ (.refl h))
        simpa using hh
      · intro p hp2
        rcases List.mem_cons.mp hp2 with heq | hmem
        · subst heq
          exact ⟨s.nextId, ⟨headId s, t2, c.message⟩, hreach, hlook, rfl⟩
        · exact hitems p hmem

/-- C2: when the cherry-pick of `(upstream/base, upstream/target]` conflicts,
`cherry_pick` aborts the in-progress cherry-pick, hard-resets to
`upstream/target`, soft-resets to `main` keeping the tree, commits with the
fixed message 'Override with reference solution', and returns
`SolutionReset`; the final HEAD commit's tree is exactly `upstream/target`'s
tree and its parent is `main`'s pre-operation commit. -/
theorem cherry_pick_conflict_solution_reset (s : GitState)
    (base target : String) (h0 bid tid m : Nat) (tc : GCommit)
    (items : List (FileTree × GCommit)) (e : String)
    (hhb1 : s.headBranch ≠ "main")
    (hhb2 : s.headBranch ≠ UPSTREAM ++ "/" ++ target)
    (hmain : alookup "main" s.branches = some m)
    (hmt : alookup "main" s.tags = none)
    (htid : resolveRef (UPSTREAM ++ "/" ++ target) s = some tid)
    (htc : alookup tid s.commits = some tc)
    (hbnd : IdsBounded s)
    (hh : headId s = some h0)
    (hbid : resolveRef (UPSTREAM ++ "/" ++ base) s = some bid)
    (hwalk : walkBack s.commits.length s bid tid [] = some items)
    (hrep : (replayList h0 s.workTree items s).2 = .error e) :
    ∃ s4 h1 gc, cherry_pick s base target = (s4, .ok .SolutionReset) ∧
      s4.workTree = tc.tree ∧
      headId s4 = some h1 ∧
      alookup h1 s4.commits = some gc ∧
      gc.parent = some m ∧ gc.tree = tc.tree ∧
      gc.message = "Override with reference solution" := by
  obtain ⟨s1, hs1⟩ : ∃ s1, replayList h0 s.workTree items s = (s1, .error e) :=
    ⟨(replayList h0 s.workTree items s).1, by rw [← hrep]⟩
  have hhb : s1.headBranch = s.headBranch := by
    have h := replayList_headBranch h0 s.workTree items s
    rw [hs1] at h
    exact h
  have htg : s1.tags = s.tags := by
    have h := replayList_tags h0 s.workTree items s
    rw [hs1] at h
    exact h
  have hbrs : ∀ b, b ≠ s.headBranch →
      alookup b s1.branches = alookup b s.branches := by
    intro b hb
    have h := replayList_branches h0 s.workTree items s b hb
    rw [hs1] at h
    exact h
  have hsv : s1.savedRef = some (h0, s.workTree) :=
    replayList_err h0 s.workTree items s s1 e hs1
  have htid2 : tid < s.nextId := hbnd (tid, tc) (alookup_mem tid tc s.commits htc)
  have hcm : alookup tid s1.commits = some tc := by
    have h := replayList_commits h0 s.workTree items s tid htid2
    rw [hs1] at h
    rw [h]
    exact htc
  have hne1 : s1.headBranch ≠ "main" := by rw [hhb]; exact hhb1
  have hne2 : s1.headBranch ≠ UPSTREAM ++ "/" ++ target := by rw [hhb]; exact hhb2
  have hcmd : gitCherryPickCmd base target s = (s1, .error e) := by
    simp only [gitCherryPickCmd, hh, hbid, htid, hwalk]
    exact hs1
  have hres2 : resolveRef (UPSTREAM ++ "/" ++ target)
      { s1 with
        branches := (s1.headBranch, h0) :: s1.branches
        workTree := s.workTree
        savedRef := none } = some tid := by
    refine (resolveRef_congr _ _ s ?_ ?_).trans htid
    · exact htg
    · show alookup (UPSTREAM ++ "/" ++ target)
        ((s1.headBranch, h0) :: s1.branches) = _
      rw [alookup_cons_ne _ _ _ _ hne2]
      exact hbrs _ (Ne.symm hhb2)
  have hres3 : resolveRef "main"
      { s1 with
        branches := (s1.headBranch, tid) :: (s1.headBranch, h0) :: s1.branches
        workTree := tc.tree
        savedRef := none } = some m := by
    refine (resolveRef_congr _ _ s ?_ ?_).trans ?_
    · exact htg
    · show alookup "main"
        ((s1.headBranch, tid) :: (s1.headBranch, h0) :: s1.branches) = _
      rw [alookup_cons_ne _ _ _ _ hne1, alookup_cons_ne _ _ _ _ hne1]
      exact hbrs _ (Ne.symm hhb1)
    · simp [resolveRef, hmt, hmain]
  have hidm : headId { s1 with
      branches := (s1.headBranch, m) :: (s1.headBranch, tid) ::
        (s1.headBranch, h0) :: s1.branches
      workTree := tc.tree
      savedRef := none } = some m := by
    simp only [headId]
    exact alookup_cons_self _ _ _
  refine ⟨mkCommit "Override with reference solution" tc.tree
      { s1 with
        branches := (s1.headBranch, m) :: (s1.headBranch, tid) ::
          (s1.headBranch, h0) :: s1.branches
        workTree := tc.tree
        savedRef := none },
    s1.nextId, ⟨some m, tc.tree, "Override with reference solution"⟩,
    ?_, rfl, ?_, ?_, rfl, rfl, rfl⟩
  · simp only [cherry_pick, hcmd, gitCherryPickAbort, hsv, gitResetHard, hres2,
      hcm, gitResetSoft, hres3, mkCommit, hidm]
  · show headId (mkCommit _ _ _) = some s1.nextId
    simp only [headId, mkCommit]
    exact alookup_cons_self _ _ _
  · simp only [mkCommit, hidm]
    exact alookup_cons_self _ _ _

/-- Witness for C2: the branch carries a conflicting edit of `f`, so the
replay conflicts and the reference solution is taken wholesale, parented on
`main`'s pre-operation commit. -/
theorem cherry_pick_conflict_solution_reset_witness :
    ∃ s4 h1 gc, cherry_pick exRepoConf "b1" "b2" = (s4, .ok .SolutionReset) ∧
      s4.workTree = exEditF.tree ∧
      headId s4 = some h1 ∧
      alookup h1 s4.commits = some gc ∧
      gc.parent = some 0 ∧ gc.tree = exEditF.tree ∧
      gc.message = "Override with reference solution" :=
  cherry_pick_conflict_solution_reset exRepoConf "b1" "b2" 0 0 1 0 exEditF
    [([("f", "v0")], exEditF)] "git failed: cherry-pick: could not apply (conflict)"
    (by decide) (by decide) (by decide) (by decide) (by decide) (by decide)
    (by decide) (by decide) (by decide) (by decide) (by decide)

/-- C4 (amended): whenever the range replays without conflict, `cherry_pick`
returns `Success` with no reset and no extra commit — the result state is
exactly what the cherry-pick command produced — and each replayed commit
appears (by message) in HEAD's ancestor chain above the pre-operation head;
when additionally the branch's tree equals `upstream/base`'s tree, the replay
is clean, the final tree equals `upstream/target`'s tree, and each new
commit's tree equals the corresponding upstream commit's tree. -/
theorem cherry_pick_clean_replay (s : GitState) (base target : String)
    (bid tid h0 : Nat) (bc tc : GCommit) (items : List (FileTree × GCommit))
    (hh : headId s = some h0)
    (hbnd : IdsBounded s)
    (hbid : resolveRef (UPSTREAM ++ "/" ++ base) s = some bid)
    (htid : resolveRef (UPSTREAM ++ "/" ++ target) s = some tid)
    (hbc : alookup bid s.commits = some bc)
    (htc : alookup tid s.commits = some tc)
    (hwalk : walkBack s.commits.length s bid tid [] = some items) :
    (∀ s1, gitCherryPickCmd base target s = (s1, .ok ()) →
      cherry_pick s base target = (s1, .ok .Success) ∧
      ∃ h1, headId s1 = some h1 ∧ Reach s1.commits h1 h0 ∧
        ∀ p ∈ items, ∃ cid gc, Reach s1.commits h1 cid ∧
          alookup cid s1.commits = some gc ∧ gc.message = p.2.message) ∧
    (s.workTree = bc.tree →
      ∃ s1, gitCherryPickCmd base target s = (s1, .ok ()) ∧
        cherry_pick s base target = (s1, .ok .Success) ∧
        s1.workTree = tc.tree ∧
        ∃ h1, headId s1 = some h1 ∧ Reach s1.commits h1 h0 ∧
          ∀ p ∈ items, ∃ cid gc, Reach s1.commits h1 cid ∧
            alookup cid s1.commits = some gc ∧
            gc.message = p.2.message ∧ gc.tree = p.2.tree) := by
  constructor
  · intro s1 hcmd
    have hsucc : cherry_pick s base target = (s1, .ok .Success) := by
      simp only [cherry_pick, hcmd]
    refine ⟨hsucc, ?_⟩
    have hrep : replayList h0 s.workTree items s = (s1, .ok ()) := by
      have h2 := hcmd
      simp only [gitCherryPickCmd, hh, hbid, htid, hwalk] at h2
      exact h2
    exact replayList_ok_history h0 s.workTree items s s1 hrep h0 hh hbnd
  · intro hwt
    have hch : Chained bc.tree items tc.tree :=
      walkBack_chained s bid bc hbc s.commits.length tid tc [] items tc.tree
        htc (Chained.nil tc.tree) hwalk
    rw [← hwt] at hch
    obtain ⟨s1, hrep, hwt1, hb1, h1, hh1, hreach, hitems⟩ :=
      replayList_clean h0 s.workTree items s tc.tree h0 hch hh hbnd
    have hcmd : gitCherryPickCmd base target s = (s1, .ok ()) := by
      simp only [gitCherryPickCmd, hh, hbid, htid, hwalk]
      exact hrep
    refine ⟨s1, hcmd, ?_, hwt1, h1, hh1, hreach, hitems⟩
    simp only [cherry_pick, hcmd]

/-- Witness for C4 (amended): the branch tree equals `upstream/b1`'s tree and
the single-commit range replays cleanly onto it. -/
theorem cherry_pick_clean_replay_witness :
    (∀ s1, gitCherryPickCmd "b1" "b2" exRepo = (s1, .ok ()) →
      cherry_pick exRepo "b1" "b2" = (s1, .ok .Success) ∧
      ∃ h1, headId s1 = some h1 ∧ Reach s1.commits h1 0 ∧
        ∀ p ∈ [([("f", "v0")], exAddG)], ∃ cid gc, Reach s1.commits h1 cid ∧
          alookup cid s1.commits = some gc ∧ gc.message = p.2.message) ∧
    (exRepo.workTree = exInitC.tree →
      ∃ s1, gitCherryPickCmd "b1" "b2" exRepo = (s1, .ok ()) ∧
        cherry_pick exRepo "b1" "b2" = (s1, .ok .Success) ∧
        s1.workTree = exAddG.tree ∧
        ∃ h1, headId s1 = some h1 ∧ Reach s1.commits h1 0 ∧
          ∀ p ∈ [([("f", "v0")], exAddG)], ∃ cid gc, Reach s1.commits h1 cid ∧
            alookup cid s1.commits = some gc ∧
            gc.message = p.2.message ∧ gc.tree = p.2.tree) :=
  cherry_pick_clean_replay exRepo "b1" "b2" 0 1 0 exInitC exAddG
    [([("f", "v0")], exAddG)]
    (by decide) (by decide) (by decide) (by decide) (by decide) (by decide)
    (by decide)

/-- Counterexample to C4 as stated: branch `t` carries *committed* drift — it
points at the `add x` commit and its working tree is clean, equal to that
commit's tree — and the range commit touches no drifted file, so the whole
range cherry-picks cleanly and `cherry_pick` returns `Success`; yet HEAD's
tree keeps the drift file and does not equal `upstream/target`'s tree. -/
theorem cherry_pick_clean_replay_counterexample :
    headId exRepoDriftC = some 2 ∧
    alookup 2 exRepoDriftC.commits = some exDriftC ∧
    exRepoDriftC.workTree = exDriftC.tree ∧
    resolveRef (UPSTREAM ++ "/" ++ "b2") exRepoDriftC = some 1 ∧
    alookup 1 exRepoDriftC.commits = some exAddG ∧
    (cherry_pick exRepoDriftC "b1" "b2").2 = .ok .Success ∧
    (cherry_pick exRepoDriftC "b1" "b2").1.workTree ≠ exAddG.tree := by
  decide
